import Mathlib

set_option maxHeartbeats 1000000

/-!
Verification development for the metadata-extraction and specification-synthesis
pipeline of the nestjs-auto-docs package.  The analyzed units are:

* `DtoAnalyzer` (scanner/dto-analyzer.ts): the recursive type resolver with its
  instance-level `visitedTypes` set and `maxDepth` bound.  The mutable instance
  state is made an explicit threaded value, and the (syntactically unbounded)
  recursion is driven by an explicit fuel parameter; a computable sufficient
  fuel is defined and proved adequate below, which is the termination argument.
* `ValidatorExtractor` (scanner/validator-extractor.ts): the decorator-name to
  constraint table.
* `ConfigService` (core/config/config.service.ts): required-field validation
  and default merging.
* `ExampleGenerator` (generators/example-generator.ts): heuristic example values.
* Path utilities and the route scanner's path combination, from
  utils/path-utils.spec.ts and the route-scanner implementation guide (the
  route-scanner.ts and openapi-generator.ts implementation files are not among
  the provided sources; their modelled parts are marked in doc comments).
-/

namespace NestJsAutoDocs

/-- JS `String.prototype.includes` on a list of characters: `containsSub s pat`
is true iff `pat` occurs contiguously in `s` (the empty pattern always occurs). -/
def isPrefixChars : List Char → List Char → Bool
  | [], _ => true
  | _ :: _, [] => false
  | p :: ps, c :: cs => p == c && isPrefixChars ps cs

/-- Substring occurrence check over character lists. -/
def containsSub : List Char → List Char → Bool
  | _, [] => true
  | [], _ :: _ => false
  | c :: cs, p :: ps => isPrefixChars (p :: ps) (c :: cs) || containsSub cs (p :: ps)

/-- JS `s.includes(pat)` for strings. -/
def jsIncludes (s pat : String) : Bool := containsSub s.toList pat.toList

/-- JS `String.prototype.trim`, computed on the character list (whitespace per
`Char.isWhitespace`). -/
def jsTrim (s : String) : String :=
  String.mk (((s.toList.dropWhile Char.isWhitespace).reverse.dropWhile
    Char.isWhitespace).reverse)

/-- JS `toLowerCase` (ASCII range, which covers the identifiers involved). -/
def jsToLower (s : String) : String := String.mk (s.toList.map Char.toLower)

/-- JS `toUpperCase` (ASCII range). -/
def jsToUpper (s : String) : String := String.mk (s.toList.map Char.toUpper)

/-- JS `startsWith`. -/
def jsStartsWith (s pat : String) : Bool := isPrefixChars pat.toList s.toList

/-- JS `endsWith`. -/
def jsEndsWith (s pat : String) : Bool :=
  isPrefixChars pat.toList.reverse s.toList.reverse

/-- `Array.prototype.join(sep)`. -/
def joinSep (sep : String) : List String → String
  | [] => ""
  | [x] => x
  | x :: y :: xs => x ++ sep ++ joinSep sep (y :: xs)

/-- An enum member literal value, string or numeric (TS `(string | number)`). -/
inductive EnumVal where
  | str (s : String)
  | int (n : Int)
  deriving Repr, DecidableEq

/-- Shallow embedding of the ts-morph `Type` values handed to
`DtoAnalyzer.analyzeType`: the primitive types, array types, enum declarations,
union types, named class types (resolved against an environment of class
declarations) and a catch-all for other shapes (type parameters, `any`,
interface-only named types, ...). -/
inductive Ty where
  | str
  | num
  | bool
  | arr (elem : Ty)
  | enumTy (name : String) (values : List EnumVal)
  | union (members : List Ty)
  | cls (name : String)
  | other (text : String)
  deriving Repr

mutual
/-- `type.getText()`: the textual name of a type. -/
def Ty.text : Ty → String
  | .str => "string"
  | .num => "number"
  | .bool => "boolean"
  | .arr e => e.text ++ "[]"
  | .enumTy n _ => n
  | .union ms => joinSep " | " (Ty.textList ms)
  | .cls n => n
  | .other t => t

/-- Texts of a list of types (for union member rendering). -/
def Ty.textList : List Ty → List String
  | [] => []
  | t :: ts => t.text :: Ty.textList ts
end

/-- `type.isString()`. -/
def Ty.isStr : Ty → Bool
  | .str => true
  | _ => false

/-- `type.isNumber()`. -/
def Ty.isNum : Ty → Bool
  | .num => true
  | _ => false

/-- `type.isBoolean()`. -/
def Ty.isBool : Ty → Bool
  | .bool => true
  | _ => false

/-- `type.isArray()`. -/
def Ty.isArrTy : Ty → Bool
  | .arr _ => true
  | _ => false

/-- `type.getArrayElementTypeOrThrow()` for arrays, identity otherwise (the
source only calls it under the `isArray` guard). -/
def Ty.baseTy : Ty → Ty
  | .arr e => e
  | t => t

/-- `type.isObject()`: named class types and array types are object types in the
TS type system; the remaining embedded shapes are not. -/
def Ty.isObjectTy : Ty → Bool
  | .cls _ => true
  | .arr _ => true
  | _ => false

/-- A declared class property as seen by the analyzer: name, declared type,
`hasQuestionToken()`, `hasInitializer()`, and the first JSDoc description. -/
structure PropDecl where
  name : String
  ty : Ty
  hasQuestionToken : Bool
  hasInitializer : Bool
  jsDoc : Option String
  deriving Repr

/-- The declaration graph: class name to declared properties.  A name found here
plays the role of a symbol whose first declaration is a ClassDeclaration
(syntax kind 256); class types not found here behave like object types without
a class declaration (the analyzer falls through to its default branch). -/
abbrev Env := List (String × List PropDecl)

/-- Symbol resolution: find the declared properties of a class name. -/
def lookupClass (env : Env) (n : String) : Option (List PropDecl) :=
  (env.find? (fun c => c.1 == n)).map (·.2)

/-- One property entry of an object descriptor (interfaces/metadata.interface.ts
`PropertyMetadata`), parametric in the type-descriptor type to allow the nested
recursion in `TypeMetadata`. -/
structure PropEntry (τ : Type) where
  name : String
  type : τ
  required : Bool
  description : Option String
  deriving Repr, DecidableEq

/-- interfaces/metadata.interface.ts `TypeMetadata`: the resolver's output
descriptor. Fields in source order: `type`, `isPrimitive`, `isArray`, `isEnum`,
`isOptional`, `elementType?`, `properties?`, `unionTypes?`, `enumValues?`,
`format?`. -/
inductive TypeMetadata where
  | mk (type : String) (isPrimitive : Bool) (isArray : Bool) (isEnum : Bool)
      (isOptional : Bool) (elementType : Option TypeMetadata)
      (properties : Option (List (PropEntry TypeMetadata)))
      (unionTypes : Option (List String)) (enumValues : Option (List EnumVal))
      (format : Option String)

/-- `PropertyMetadata` of the interfaces file. -/
abbrev PropertyMetadata := PropEntry TypeMetadata

def TypeMetadata.type : TypeMetadata → String
  | .mk t _ _ _ _ _ _ _ _ _ => t

def TypeMetadata.isPrimitive : TypeMetadata → Bool
  | .mk _ p _ _ _ _ _ _ _ _ => p

def TypeMetadata.isArray : TypeMetadata → Bool
  | .mk _ _ a _ _ _ _ _ _ _ => a

def TypeMetadata.isEnum : TypeMetadata → Bool
  | .mk _ _ _ e _ _ _ _ _ _ => e

def TypeMetadata.elementType : TypeMetadata → Option TypeMetadata
  | .mk _ _ _ _ _ el _ _ _ _ => el

def TypeMetadata.properties : TypeMetadata → Option (List (PropEntry TypeMetadata))
  | .mk _ _ _ _ _ _ ps _ _ _ => ps

def TypeMetadata.unionTypes : TypeMetadata → Option (List String)
  | .mk _ _ _ _ _ _ _ u _ _ => u

def TypeMetadata.enumValues : TypeMetadata → Option (List EnumVal)
  | .mk _ _ _ _ _ _ _ _ ev _ => ev

def TypeMetadata.format : TypeMetadata → Option String
  | .mk _ _ _ _ _ _ _ _ _ f => f

/-- `DtoAnalyzer.detectStringFormat` (dto-analyzer lines 207-216). -/
def detectStringFormat (typeName : String) : Option String :=
  let lowerType := jsToLower typeName
  if jsIncludes lowerType "email" then some "email"
  else if jsIncludes lowerType "url" || jsIncludes lowerType "uri" then some "uri"
  else if jsIncludes lowerType "uuid" then some "uuid"
  else if jsIncludes lowerType "date" then some "date-time"
  else none

/-- The resolver's cutoff descriptor (dto-analyzer lines 59-65). -/
def unknownMeta : TypeMetadata :=
  .mk "unknown" false false false false none none none none none

/-- The non-expanding circular-reference descriptor (dto-analyzer lines 72-78):
only the type name is carried, every other field is absent or false. -/
def refMeta (typeName : String) : TypeMetadata :=
  .mk typeName false false false false none none none none none

/-- The `visitedTypes` instance field, made explicit (a JS `Set<string>` used
only through `has`/`add`/`clear`). -/
abbrev Visited := List String

/-- `Set.add`: insert if not present. -/
def Visited.add (v : Visited) (n : String) : Visited :=
  if v.contains n then v else n :: v

/-- The `maxDepth` instance field (dto-analyzer line 6). -/
def maxDepth : Nat := 5

/-- `DtoAnalyzer.analyzeProperty` (lines 34-51) with the recursive analysis
abstracted: `required` is the conjunction of not having a question token and
not having an initializer, and the property type is analyzed at depth 0. -/
def analyzeProp (analyze : Ty → Nat → Visited → Option (TypeMetadata × Visited))
    (p : PropDecl) (v : Visited) : Option (PropertyMetadata × Visited) :=
  (analyze p.ty 0 v).map fun r =>
    (⟨p.name, r.1, !p.hasQuestionToken && !p.hasInitializer, p.jsDoc.map jsTrim⟩, r.2)

/-- `properties.map(prop => this.analyzeProperty(prop))` with the mutable
visited set threaded left to right. -/
def runProps (analyze : Ty → Nat → Visited → Option (TypeMetadata × Visited)) :
    List PropDecl → Visited → Option (List PropertyMetadata × Visited)
  | [], v => some ([], v)
  | p :: rest, v =>
    match analyzeProp analyze p v with
    | none => none
    | some (pm, v') =>
      match runProps analyze rest v' with
      | none => none
      | some (pms, v'') => some (pm :: pms, v'')

/-- The `const elementType = isArray ? this.analyzeType(baseType, depth + 1) :
undefined` step of `analyzeType` (dto-analyzer line 86), threading the visited
state mutated by the element analysis. -/
def elementStep (analyze : Ty → Nat → Visited → Option (TypeMetadata × Visited))
    (isArray : Bool) (baseType : Ty) (depth : Nat) (v : Visited) :
    Option (Option TypeMetadata × Visited) :=
  if isArray then (analyze baseType (depth + 1) v).map (fun r => (some r.1, r.2))
  else some (none, v)

/-- The symbol resolution step of the object branch (dto-analyzer lines
169-175): only a named class type yields a ClassDeclaration; array object
types resolve to the Array interface, which is not a class declaration. -/
def classSymbolProps (env : Env) : Ty → Option (List PropDecl)
  | Ty.cls n => lookupClass env n
  | _ => none

/-- The classification chain of `analyzeType` after the element step
(dto-analyzer lines 88-201): the string/number/boolean primitives on the base
type, the `typeName.includes('Date')` special case, enums, unions (shallow,
member texts only), object types (the full type text is added to the visited
set first, then the symbol's class declaration is expanded; without a class
declaration the code falls through to the default branch, keeping the
addition), and the default fallback retaining the original type text. -/
def classifyBase (env : Env)
    (analyze : Ty → Nat → Visited → Option (TypeMetadata × Visited))
    (typeName : String) (isArray : Bool) (baseType : Ty)
    (elementType : Option TypeMetadata) (v1 : Visited) :
    Option (TypeMetadata × Visited) :=
  if baseType.isStr then
    some (.mk "string" true isArray false false elementType none none none
      (detectStringFormat typeName), v1)
  else if baseType.isNum then
    some (.mk "number" true isArray false false elementType none none none none, v1)
  else if baseType.isBool then
    some (.mk "boolean" true isArray false false elementType none none none none, v1)
  else if jsIncludes typeName "Date" then
    some (.mk "string" true isArray false false elementType none none none
      (some "date-time"), v1)
  else
    match baseType with
    | Ty.enumTy _ vals =>
      some (.mk "string" false isArray true false elementType none none
        (some vals) none, v1)
    | Ty.union ms =>
      some (.mk typeName false isArray false false elementType none
        (some (Ty.textList ms)) none none, v1)
    | _ =>
      if baseType.isObjectTy then
        let v2 := v1.add typeName
        match classSymbolProps env baseType with
        | some props =>
          match runProps analyze props v2 with
          | none => none
          | some (pms, v3) =>
            some (.mk baseType.text false isArray false false elementType
              (some pms) none none none, v3)
        | none =>
          some (.mk typeName false isArray false false elementType none
            none none none, v2)
      else
        some (.mk typeName false isArray false false elementType none
          none none none, v1)

/-- `DtoAnalyzer.analyzeType` (dto-analyzer lines 56-202).  Decision order as
in the source: depth cutoff, visited (circular-reference) check on the full
type text, array element analysis at `depth + 1`, then the classification
chain of `classifyBase`.  `fuel` bounds the recursion; `analyzeSufficientFuel`
below is proved to make the fuel case unreachable. -/
def analyzeTypeF (env : Env) : Nat → Ty → Nat → Visited → Option (TypeMetadata × Visited)
  | 0, _, _, _ => none
  | fuel + 1, ty, depth, visited =>
    if depth > maxDepth then some (unknownMeta, visited)
    else if visited.contains ty.text then some (refMeta ty.text, visited)
    else
      match elementStep (analyzeTypeF env fuel) ty.isArrTy ty.baseTy depth visited with
      | none => none
      | some (elementType, v1) =>
        classifyBase env (analyzeTypeF env fuel) ty.text ty.isArrTy ty.baseTy
          elementType v1

/-- interfaces/metadata.interface.ts `DtoMetadata`. -/
structure DtoMetadata where
  name : String
  properties : List PropertyMetadata
  description : Option String

/-- A class declaration as handed to `analyzeDto`: `getName()` (possibly
absent), declared properties, first JSDoc description. -/
structure DtoDecl where
  name : Option String
  props : List PropDecl
  jsDoc : Option String

/-- `DtoAnalyzer.analyzeDto` (lines 11-29) as a function of the analyzer's
instance state: the incoming `visitedTypes` content is cleared
(`this.visitedTypes.clear()`) before the properties are analyzed, and the
state produced by the property analyses is the instance state afterwards. -/
def analyzeDtoS (env : Env) (fuel : Nat) (d : DtoDecl) (_state : Visited) :
    Option (DtoMetadata × Visited) :=
  match runProps (analyzeTypeF env fuel) d.props [] with
  | none => none
  | some (pms, v') =>
    some ({ name := d.name.getD "UnknownDto", properties := pms,
            description := d.jsDoc.map jsTrim }, v')

/-! ### Fuel sufficiency bound

The source recursion of `analyzeType` has no fuel; it terminates because every
expansion of an object type first adds the type's full text to the visited set
(and the guard ensures the text was absent), and all texts ever added belong to
the finite set of texts of the array-spines of the root type and of the
declared property types.  `fuelBound` packages this measure as a concrete
sufficient fuel, proved adequate below. -/

/-- The chain of types analyzed while peeling array layers off a type
(the type itself, then its element, and so on). -/
def spineTys : Ty → List Ty
  | .arr e => .arr e :: spineTys e
  | .str => [.str]
  | .num => [.num]
  | .bool => [.bool]
  | .enumTy n vs => [.enumTy n vs]
  | .union ms => [.union ms]
  | .cls n => [.cls n]
  | .other t => [.other t]

/-- Length of the array spine (at least 1). -/
def spineLen (t : Ty) : Nat := (spineTys t).length

/-- All declared properties of all classes of the environment. -/
def envPropsList (env : Env) : List PropDecl := env.flatMap (·.2)

/-- All types reachable as roots of property analyses, with their spines. -/
def envTys (env : Env) : List Ty := (envPropsList env).flatMap (fun p => spineTys p.ty)

/-- The finite universe of type texts that an analysis rooted at `ty` can ever
add to the visited set. -/
def univNames (env : Env) (ty : Ty) : Finset String :=
  ((spineTys ty ++ envTys env).map Ty.text).toFinset

/-- The environment part of `univNames`. -/
def envUnivNames (env : Env) : Finset String := ((envTys env).map Ty.text).toFinset

/-- Upper bound on the spine length of any declared property type. -/
def maxPropSpine (env : Env) : Nat :=
  ((envPropsList env).map (fun p => spineLen p.ty)).foldr max 0

/-- A sufficient fuel for `analyzeTypeF env · ty _ v`: lexicographic measure
(fresh universe names, spine length) collapsed into one number. -/
def fuelBound (env : Env) (v : Visited) (ty : Ty) : Nat :=
  (univNames env ty \ v.toFinset).card * (maxPropSpine env + 1) + spineLen ty

/-- Concrete sufficient fuel for a top-level analysis with a fresh state. -/
def analyzeSufficientFuel (env : Env) (ty : Ty) : Nat := fuelBound env [] ty + 1

/-- Follow the first property of an object descriptor `n` times (diagnostic
accessor used to inspect nesting depth of resolver output). -/
def nestedPropTy : Nat → TypeMetadata → Option TypeMetadata
  | 0, m => some m
  | n + 1, m =>
    match m.properties with
    | some (pm :: _) => nestedPropTy n pm.type
    | _ => none

/-- Follow the element type of an array descriptor `n` times. -/
def elemChain : Nat → TypeMetadata → Option TypeMetadata
  | 0, m => some m
  | n + 1, m =>
    match m.elementType with
    | some e => elemChain n e
    | none => none

/-! ### Example generator (generators/example-generator.ts) -/

/-- A JSON-like example value; numbers are exact rationals (`99.99` etc.). -/
inductive Val where
  | str (s : String)
  | num (q : ℚ)
  | bool (b : Bool)
  | null
  | arr (xs : List Val)
  | obj (fields : List (String × Val))
  deriving Repr

/-- The `switch (format)` of `generatePrimitiveExample` (example-generator
lines 56-72); an unrecognized format falls through (no default case). -/
def formatExample : Option String → Option Val
  | some "email" => some (Val.str "user@example.com")
  | some "uri" => some (Val.str "https://example.com")
  | some "url" => some (Val.str "https://example.com")
  | some "uuid" => some (Val.str "123e4567-e89b-12d3-a456-426614174000")
  | some "date" => some (Val.str "2026-01-19")
  | some "date-time" => some (Val.str "2026-01-19T12:00:00Z")
  | some "password" => some (Val.str "P@ssw0rd123")
  | _ => none

/-- The field-name heuristic chain of `generatePrimitiveExample` (lines
75-171), first match wins; `none` when no pattern matches (source falls
through to the type-based switch). -/
def fieldNameExample (lowerName : String) : Option Val :=
  if jsIncludes lowerName "email" then some (Val.str "user@example.com")
  else if jsIncludes lowerName "firstname" || lowerName == "first_name" then some (Val.str "John")
  else if jsIncludes lowerName "lastname" || lowerName == "last_name" then some (Val.str "Doe")
  else if jsIncludes lowerName "name" && !jsIncludes lowerName "username" then
    some (Val.str "Example Name")
  else if jsIncludes lowerName "username" then some (Val.str "johndoe")
  else if jsIncludes lowerName "phone" || jsIncludes lowerName "mobile" then
    some (Val.str "+1234567890")
  else if jsIncludes lowerName "address" then some (Val.str "123 Main St")
  else if jsIncludes lowerName "city" then some (Val.str "New York")
  else if jsIncludes lowerName "country" then some (Val.str "USA")
  else if jsIncludes lowerName "zip" || jsIncludes lowerName "postal" then some (Val.str "10001")
  else if jsIncludes lowerName "url" || jsIncludes lowerName "website" then
    some (Val.str "https://example.com")
  else if jsEndsWith lowerName "id" || jsIncludes lowerName "_id" then some (Val.num 1)
  else if jsIncludes lowerName "date" && !jsIncludes lowerName "update" then
    some (Val.str "2026-01-19")
  else if jsIncludes lowerName "createdat" then some (Val.str "2026-01-19T12:00:00Z")
  else if jsIncludes lowerName "updatedat" then some (Val.str "2026-01-19T12:00:00Z")
  else if jsIncludes lowerName "status" then some (Val.str "active")
  else if jsIncludes lowerName "role" then some (Val.str "user")
  else if jsIncludes lowerName "description" || jsIncludes lowerName "desc" then
    some (Val.str "Example description")
  else if jsIncludes lowerName "title" then some (Val.str "Example Title")
  else if jsIncludes lowerName "price" || jsIncludes lowerName "amount" then
    some (Val.num (9999 / 100))
  else if jsIncludes lowerName "quantity" || jsIncludes lowerName "count" then
    some (Val.num 10)
  else if jsIncludes lowerName "is" || jsIncludes lowerName "has" || jsIncludes lowerName "can" then
    some (Val.bool true)
  else none

/-- The type-based fallback switch of `generatePrimitiveExample` (lines
174-187). -/
def typeBasedExample (type : String) : Val :=
  if type == "string" then Val.str "example"
  else if type == "number" then Val.num 42
  else if type == "integer" then Val.num 42
  else if type == "boolean" then Val.bool true
  else Val.null

/-- `ExampleGenerator.generatePrimitiveExample` (lines 51-188): declared format
first, then the field-name heuristic on the lowercased name, then the
type-based fallback. -/
def generatePrimitiveExample (tm : TypeMetadata) (fieldName : Option String) : Val :=
  match formatExample tm.format with
  | some v => v
  | none =>
    match fieldName with
    | some fn =>
      match fieldNameExample (jsToLower fn) with
      | some v => v
      | none => typeBasedExample tm.type
    | none => typeBasedExample tm.type

/-- First declared enum value, if any (`enumValues[0]`). -/
def firstEnum : Option (List EnumVal) → Option EnumVal
  | some (v :: _) => some v
  | _ => none

/-- Enum member literal as a JSON value. -/
def enumValToVal : EnumVal → Val
  | .str s => Val.str s
  | .int n => Val.num n

mutual
/-- `ExampleGenerator.generateFromType` (lines 18-46).  Branch order as in the
source: primitives first (so primitive array descriptors take the primitive
branch), then arrays with a present element type, then non-empty enums, then
objects, else null. -/
def generateFromType : TypeMetadata → Option String → Val
  | .mk t prim isArr isEn opt elemTy props uni enums fmt, fieldName =>
    if prim then
      generatePrimitiveExample (.mk t prim isArr isEn opt elemTy props uni enums fmt) fieldName
    else
      match isArr, elemTy with
      | true, some e => Val.arr [generateFromType e none]
      | _, _ =>
        match (if isEn then firstEnum enums else none) with
        | some v => enumValToVal v
        | none =>
          match props with
          | some ps => Val.obj (genProps ps)
          | none => Val.null

/-- The object branch: one field per property, each generated with the
property's name as field-name hint (`generateExample(prop)`). -/
def genProps : List (PropEntry TypeMetadata) → List (String × Val)
  | [] => []
  | p :: rest => (p.name, generateFromType p.type (some p.name)) :: genProps rest
end

/-- `ExampleGenerator.generateExample` (lines 7-13); the property's type is
always present in the metadata model, so the null fallback is unreachable. -/
def generateExample (p : PropertyMetadata) : Val :=
  generateFromType p.type (some p.name)

/-! ### Validator extractor (scanner/validator-extractor.ts) -/

/-- A decorator argument after `parseArgument`: a parsed number, the literal
text, or JS `undefined` (missing argument). -/
inductive ConstraintArg where
  | num (n : Int)
  | str (s : String)
  | undef
  deriving Repr, DecidableEq

/-- JS `parseInt` on decimal input: skip surrounding whitespace, optional
sign, then leading decimal digits; NaN (here `none`) when no digit is read.
(The radix prefixes of full `parseInt` do not occur in validator arguments.) -/
def jsParseInt (s : String) : Option Int :=
  let core : Bool → List Char → Option Int := fun neg cs =>
    let digits := cs.takeWhile Char.isDigit
    if digits.isEmpty then none
    else
      let n : Nat := digits.foldl (fun acc c => acc * 10 + (c.toNat - 48)) 0
      some (if neg then -(Int.ofNat n) else Int.ofNat n)
  match (jsTrim s).toList with
  | '-' :: rest => core true rest
  | '+' :: rest => core false rest
  | cs => core false cs

/-- `ValidatorExtractor.parseArgument` (lines 158-165): undefined stays
undefined, numeric-looking text parses to a number, otherwise the text is
kept. -/
def parseArgument : Option String → ConstraintArg
  | none => ConstraintArg.undef
  | some text =>
    match jsParseInt text with
    | some n => ConstraintArg.num n
    | none => ConstraintArg.str text

/-- Strip the one leading and one trailing regex delimiter slash
(`.replace(/^\/|\/$/g, '')`). -/
def stripRegexSlashes (s : String) : String :=
  let l1 := match s.toList with
    | '/' :: rest => rest
    | l => l
  String.mk (match l1.reverse with
    | '/' :: rest => rest.reverse
    | _ => l1)

/-- The partial OpenAPI constraints record built by the mapper; every field is
absent unless the branch sets it. -/
structure Constraints where
  type : Option String := none
  format : Option String := none
  minLength : Option ConstraintArg := none
  maxLength : Option ConstraintArg := none
  pattern : Option String := none
  minimum : Option ConstraintArg := none
  maximum : Option ConstraintArg := none
  enum : Option (List String) := none
  minItems : Option ConstraintArg := none
  maxItems : Option ConstraintArg := none
  required : Option Bool := none
  deriving Repr, DecidableEq

/-- interfaces `ValidatorMetadata`: decorator name, optional raw args,
constraints. -/
structure ValidatorMetadata where
  name : String
  args : Option (List ConstraintArg) := none
  constraints : Constraints
  deriving Repr, DecidableEq

/-- The names recognized by the `switch` of `mapValidatorDecorator`
(validator-extractor lines 29-144). -/
def recognizedValidatorNames : List String :=
  ["IsString", "IsEmail", "IsUrl", "IsURL", "IsUUID", "MinLength", "MaxLength",
   "Length", "Matches", "IsNumber", "IsInt", "IsDecimal", "Min", "Max",
   "IsBoolean", "IsDate", "IsDateString", "IsEnum", "IsArray", "ArrayMinSize",
   "ArrayMaxSize", "IsOptional", "IsNotEmpty", "IsObject"]

/-- `ValidatorExtractor.mapValidatorDecorator` (lines 24-153): the switch on
the decorator name, with `args` the decorator's argument texts.  The default
case keeps an empty-constraint descriptor for names following the `Is`/
`Validate` prefix convention and silently drops every other name. -/
def mapValidatorDecorator (name : String) (args : List String) : Option ValidatorMetadata :=
  if name = "IsString" then some ⟨name, none, { type := some "string" }⟩
  else if name = "IsEmail" then some ⟨name, none, { format := some "email" }⟩
  else if name = "IsUrl" ∨ name = "IsURL" then some ⟨name, none, { format := some "uri" }⟩
  else if name = "IsUUID" then some ⟨name, none, { format := some "uuid" }⟩
  else if name = "MinLength" then
    some ⟨name, some [parseArgument (args.get? 0)],
      { minLength := some (parseArgument (args.get? 0)) }⟩
  else if name = "MaxLength" then
    some ⟨name, some [parseArgument (args.get? 0)],
      { maxLength := some (parseArgument (args.get? 0)) }⟩
  else if name = "Length" then
    some ⟨name, some [parseArgument (args.get? 0), parseArgument (args.get? 1)],
      { minLength := some (parseArgument (args.get? 0)),
        maxLength := some (parseArgument (args.get? 1)) }⟩
  else if name = "Matches" then
    some ⟨name, some [match args.get? 0 with
                      | some t => ConstraintArg.str t
                      | none => ConstraintArg.undef],
      { pattern := (args.get? 0).map stripRegexSlashes }⟩
  else if name = "IsNumber" ∨ name = "IsInt" ∨ name = "IsDecimal" then
    some ⟨name, none, { type := some "number" }⟩
  else if name = "Min" then
    some ⟨name, some [parseArgument (args.get? 0)],
      { minimum := some (parseArgument (args.get? 0)) }⟩
  else if name = "Max" then
    some ⟨name, some [parseArgument (args.get? 0)],
      { maximum := some (parseArgument (args.get? 0)) }⟩
  else if name = "IsBoolean" then some ⟨name, none, { type := some "boolean" }⟩
  else if name = "IsDate" ∨ name = "IsDateString" then
    some ⟨name, none, { format := some "date-time" }⟩
  else if name = "IsEnum" then
    match args.get? 0 with
    | some t => some ⟨name, some [ConstraintArg.str t], { enum := some [t] }⟩
    | none => some ⟨name, none, {}⟩
  else if name = "IsArray" then some ⟨name, none, { type := some "array" }⟩
  else if name = "ArrayMinSize" then
    some ⟨name, some [parseArgument (args.get? 0)],
      { minItems := some (parseArgument (args.get? 0)) }⟩
  else if name = "ArrayMaxSize" then
    some ⟨name, some [parseArgument (args.get? 0)],
      { maxItems := some (parseArgument (args.get? 0)) }⟩
  else if name = "IsOptional" then some ⟨name, none, { required := some false }⟩
  else if name = "IsNotEmpty" then some ⟨name, none, { required := some true }⟩
  else if name = "IsObject" then some ⟨name, none, { type := some "object" }⟩
  else if jsStartsWith name "Is" || jsStartsWith name "Validate" then some ⟨name, none, {}⟩
  else none

/-! ### Config service (core/config/config.service.ts) -/

/-- The version-detection configuration of `AutoDocsOptions` (the source field
named with the Lean keyword for prefixes is rendered `versionPrefix`). -/
structure VersioningConfig where
  enabled : Bool
  versionPrefix : Option String := none
  fallback : Option String := none
  deriving Repr, DecidableEq

/-- interfaces/options.interface.ts `AutoDocsOptions` (the fields the config
service and the generator consult; `none` models an absent key). -/
structure AutoDocsOptions where
  title : Option String := none
  version : Option String := none
  description : Option String := none
  sourcePath : Option String := none
  globalPrefix : Option String := none
  docsPath : Option String := none
  specPath : Option String := none
  scanOnStart : Option Bool := none
  watchMode : Option Bool := none
  includeSecurity : Option Bool := none
  versioning : Option VersioningConfig := none
  deriving Repr, DecidableEq

/-- JS truthiness/emptiness test of `validateRequiredFields`:
`!field || field.trim() === ''`. -/
def isBlankField : Option String → Bool
  | none => true
  | some s => s == "" || jsTrim s == ""

/-- `ConfigService.validateRequiredFields` (config.service lines 22-30). -/
def validateRequiredFields (o : AutoDocsOptions) : Except String Unit :=
  if isBlankField o.title then
    Except.error "AutoDocs configuration error: \"title\" is required and cannot be empty"
  else if isBlankField o.version then
    Except.error "AutoDocs configuration error: \"version\" is required and cannot be empty"
  else Except.ok ()

/-- `ConfigService.mergeWithDefaults` (lines 32-42).  The trailing
`...options` spread restores every key present on the input (even an empty
string), so a default takes effect exactly when the key is absent. -/
def mergeWithDefaults (o : AutoDocsOptions) : AutoDocsOptions :=
  { o with
    sourcePath := some (o.sourcePath.getD "src")
    docsPath := some (o.docsPath.getD "/docs")
    specPath := some (o.specPath.getD "/docs-json")
    scanOnStart := some (o.scanOnStart.getD true)
    watchMode := some (o.watchMode.getD false)
    includeSecurity := some (o.includeSecurity.getD true) }

/-- The `ConfigService` constructor (lines 9-12): validation then default
merging; an error models the thrown exception aborting startup. -/
def constructConfigService (o : AutoDocsOptions) : Except String AutoDocsOptions :=
  match validateRequiredFields o with
  | Except.error e => Except.error e
  | Except.ok _ => Except.ok (mergeWithDefaults o)

/-- Whether construction succeeded. -/
def exceptIsOk : Except String AutoDocsOptions → Bool
  | Except.ok _ => true
  | Except.error _ => false

/-! ### Path utilities and route scanner path combination -/

/-- Strip every leading and trailing separator of one segment
(`segment.replace(/^\/+|\/+$/g, '')`, from the path combining utility in
src/src/utils/path-utils.spec.ts). -/
def stripSlashes (s : String) : String :=
  String.mk (((s.toList.dropWhile (· == '/')).reverse.dropWhile (· == '/')).reverse)

/-- `combinePaths` from src/src/utils/path-utils.spec.ts (path combining):
drop empty segments, strip each segment's edge separators, drop the segments
that became empty, join with a single separator.  The result never carries a
leading separator. -/
def combinePaths (segments : List String) : String :=
  joinSep "/"
    (((segments.filter (fun s => s ≠ "")).map stripSlashes).filter (fun s => s ≠ ""))

/-- Collapse every run of separators into one (`.replace(/\/+/g, '/')`):
a separator followed by another separator is dropped. -/
def squeezeSlashes : List Char → List Char
  | [] => []
  | [c] => [c]
  | c :: d :: rest =>
    if c == '/' && d == '/' then squeezeSlashes (d :: rest)
    else c :: squeezeSlashes (d :: rest)

/-- `RouteScanner.combinePaths`, modelled from the implementation guide in
src/unnamed/part_000 lines 106-110 (the route-scanner implementation file is
not among the provided sources): keep the non-empty, non-separator segments,
join, collapse duplicate separators and prepend a leading separator.  Its
observable behavior is pinned by src/src/scanner/route-scanner.spec.ts
(`fullPath` is `/test/items` for base `test` and route path `items`, and
`/test` for an empty route path). -/
def routeScannerCombine (base path : String) : String :=
  "/" ++ String.mk (squeezeSlashes
    (joinSep "/" ([base, path].filter (fun p => p ≠ "" && p ≠ "/"))).toList)

/-- The route's `fullPath` as produced by `extractRoute`
(`this.combinePaths(controllerPath, routePath)`). -/
def routeFullPath (basePath routePath : String) : String :=
  routeScannerCombine basePath routePath

/-! ### OpenAPI generator (generators/openapi-generator.ts) -/

/-- One server entry of the synthesized document. -/
structure ServerObject where
  url : String
  description : String
  deriving Repr, DecidableEq

/-- interfaces `RouteMetadata` (the fields path synthesis consumes). -/
structure RouteMeta where
  name : String
  httpMethod : String
  path : String
  fullPath : String
  isPublic : Bool := false
  deriving Repr, DecidableEq

/-- interfaces `ControllerMetadata` (the fields path synthesis consumes). -/
structure ControllerMeta where
  name : String
  path : String
  filePath : String
  category : String
  version : Option String := none
  routes : List RouteMeta
  deriving Repr, DecidableEq

/-- Deduplicate keeping first occurrences, with the set of already-seen
entries accumulated. -/
def dedupKeepFirstAux (seen : List String) : List String → List String
  | [] => []
  | x :: xs =>
    if seen.contains x then dedupKeepFirstAux seen xs
    else x :: dedupKeepFirstAux (x :: seen) xs

/-- Deduplicate keeping first occurrences (one entry per distinct version). -/
def dedupKeepFirst (l : List String) : List String := dedupKeepFirstAux [] l

/-- Modelled from the spec: the OpenApiGenerator implementation file
(generators/openapi-generator.ts) is not among the provided sources; its
versioned path construction is specified in spec section 4.6 and exercised by
the integration test in src/unnamed/part_005.  With versioning enabled, a
controller's routes are mounted under `prefix + '/' + version`, with the
configured fallback prefix for controllers without a detected version. -/
def versionedPathRoot (vc : VersioningConfig) (c : ControllerMeta) : String :=
  match c.version with
  | some v => vc.versionPrefix.getD "" ++ "/" ++ v
  | none => vc.fallback.getD (vc.versionPrefix.getD "")

/-- Modelled from the spec: the synthesized path keys, stored without a leading
separator (spec section 4.6), one per route, under the per-version root when
versioning is enabled and under the global prefix otherwise. -/
def generatePathKeys (controllers : List ControllerMeta) (opts : AutoDocsOptions) : List String :=
  match opts.versioning with
  | some vc =>
    if vc.enabled then
      controllers.flatMap (fun c =>
        c.routes.map (fun r => combinePaths [versionedPathRoot vc c, r.fullPath]))
    else
      controllers.flatMap (fun c =>
        c.routes.map (fun r => combinePaths [opts.globalPrefix.getD "", r.fullPath]))
  | none =>
    controllers.flatMap (fun c =>
      c.routes.map (fun r => combinePaths [opts.globalPrefix.getD "", r.fullPath]))

/-- Modelled from the spec: one server entry per distinct detected version,
at url `prefix + '/' + version`, labeled `"API " + version.toUpperCase()`
(spec section 4.6); a single global-prefix server when versioning is
disabled. -/
def generateServers (controllers : List ControllerMeta) (opts : AutoDocsOptions) : List ServerObject :=
  match opts.versioning with
  | some vc =>
    if vc.enabled then
      (dedupKeepFirst (controllers.filterMap (·.version))).map
        (fun v => ⟨vc.versionPrefix.getD "" ++ "/" ++ v, "API " ++ jsToUpper v⟩)
    else
      [⟨opts.globalPrefix.getD "", "API Server"⟩]
  | none => [⟨opts.globalPrefix.getD "", "API Server"⟩]

/-- Modelled from the spec: the components of the synthesized document the
versioning claims concern (path-key table and server list). -/
structure SpecDocument where
  paths : List String
  servers : List ServerObject
  deriving Repr, DecidableEq

/-- Modelled from the spec: `OpenApiGenerator.generate`, restricted to the
path keys and servers. -/
def generateSpec (controllers : List ControllerMeta) (opts : AutoDocsOptions) : SpecDocument :=
  ⟨generatePathKeys controllers opts, generateServers controllers opts⟩

/-! ### Concrete sample data used by the claim theorems -/

/-- A self-referential class: `class Node with next: Node`. -/
def nodeEnv : Env := [("Node", [⟨"next", Ty.cls "Node", false, false, none⟩])]

/-- A chain of seven classes, each holding a property of the next class type. -/
def chainEnv7 : Env :=
  [("A1", [⟨"a", Ty.cls "A2", false, false, none⟩]),
   ("A2", [⟨"a", Ty.cls "A3", false, false, none⟩]),
   ("A3", [⟨"a", Ty.cls "A4", false, false, none⟩]),
   ("A4", [⟨"a", Ty.cls "A5", false, false, none⟩]),
   ("A5", [⟨"a", Ty.cls "A6", false, false, none⟩]),
   ("A6", [⟨"a", Ty.cls "A7", false, false, none⟩]),
   ("A7", [⟨"x", Ty.str, false, false, none⟩])]

/-- Two unrelated root classes; `B` has a property of class type `A`. -/
def leakEnv : Env :=
  [("A", [⟨"x", Ty.str, false, false, none⟩]),
   ("B", [⟨"a", Ty.cls "A", false, false, none⟩])]

/-- A seven-fold nested array of strings. -/
def arr7 : Ty := .arr (.arr (.arr (.arr (.arr (.arr (.arr .str))))))

/-- String-typed primitive metadata with declared format `uri` on a property
named `email`. -/
def emailUriProp : PropertyMetadata :=
  ⟨"email", .mk "string" true false false false none none none none (some "uri"), true, none⟩

/-- String-typed primitive metadata with no declared format on a property
named `contactUrl`. -/
def contactUrlProp : PropertyMetadata :=
  ⟨"contactUrl", .mk "string" true false false false none none none none none, true, none⟩

/-- String-typed primitive metadata with no declared format on a property
named `email`. -/
def emailPlainProp : PropertyMetadata :=
  ⟨"email", .mk "string" true false false false none none none none none, true, none⟩

/-- The descriptor the analyzer produces for `string[]` (checked by the C9
counterexample). -/
def stringArrayMeta : TypeMetadata :=
  .mk "string" true true false false
    (some (.mk "string" true false false false none none none none none))
    none none none none

/-- A `string[]`-typed property named `tags`. -/
def tagsProp : PropertyMetadata := ⟨"tags", stringArrayMeta, true, none⟩

/-- The v1 admin controller of the multi-version integration test. -/
def adminV1 : ControllerMeta :=
  { name := "AdminControllerV1", path := "admin",
    filePath := "src/api/v1/admin/admin.controller.ts", category := "Admin",
    version := some "v1",
    routes := [{ name := "getProfile", httpMethod := "GET", path := "profile",
                 fullPath := "/admin/profile" }] }

/-- The v2 admin controller of the multi-version integration test. -/
def adminV2 : ControllerMeta :=
  { name := "AdminControllerV2", path := "admin",
    filePath := "src/api/v2/admin/admin.controller.ts", category := "Admin",
    version := some "v2",
    routes := [{ name := "getProfile", httpMethod := "GET", path := "profile",
                 fullPath := "/admin/profile" }] }

/-- The versioning options of the multi-version integration test. -/
def multiVersionOpts : AutoDocsOptions :=
  { title := some "Multi-Version API", version := some "2.0",
    versioning := some { enabled := true, versionPrefix := some "/api" } }

/-- A well-formed configuration with only the required fields. -/
def minimalGoodOpts : AutoDocsOptions :=
  { title := some "Test API", version := some "1.0" }

/-- A self-referential class whose name contains `Date`:
`class DateNode with self: DateNode`. -/
def dateNodeEnv : Env := [("DateNode", [⟨"self", Ty.cls "DateNode", false, false, none⟩])]

/-- The descriptor the analyzer produces for any type whose text contains
`Date` (dto-analyzer lines 124-134): a date-time string primitive. -/
def dateTimeMeta : TypeMetadata :=
  .mk "string" true false false false none none none none (some "date-time")

/-! ## Lemmas: the visited set only grows -/

theorem Visited.subset_add (v : Visited) (n : String) : v ⊆ v.add n := by
  unfold Visited.add
  split
  · exact fun x hx => hx
  · exact fun x hx => List.mem_cons_of_mem _ hx

theorem Visited.mem_add (v : Visited) (n : String) : n ∈ v.add n := by
  unfold Visited.add
  split
  · next h => exact List.elem_iff.mp h
  · exact List.mem_cons_self _ _

theorem analyzeProp_grows (a : Ty → Nat → Visited → Option (TypeMetadata × Visited))
    (ha : ∀ ty d v r, a ty d v = some r → v ⊆ r.2)
    (p : PropDecl) (v : Visited) (r : PropertyMetadata × Visited)
    (h : analyzeProp a p v = some r) : v ⊆ r.2 := by
  unfold analyzeProp at h
  cases hq : a p.ty 0 v with
  | none => rw [hq] at h; simp at h
  | some q =>
    rw [hq] at h
    injection h with h
    subst h
    exact ha _ _ _ _ hq

theorem runProps_grows (a : Ty → Nat → Visited → Option (TypeMetadata × Visited))
    (ha : ∀ ty d v r, a ty d v = some r → v ⊆ r.2) :
    ∀ (props : List PropDecl) (v : Visited) (r : List PropertyMetadata × Visited),
      runProps a props v = some r → v ⊆ r.2 := by
  intro props
  induction props with
  | nil =>
    intro v r h
    unfold runProps at h
    injection h with h
    subst h
    exact fun x hx => hx
  | cons p rest ih =>
    intro v r h
    rw [runProps] at h
    split at h
    · exact absurd h (by simp)
    · rename_i pm v1 hp
      split at h
      · exact absurd h (by simp)
      · rename_i pms v2 hr
        injection h with h
        subst h
        have h1 : v ⊆ v1 := analyzeProp_grows a ha p v (pm, v1) hp
        have h2 : v1 ⊆ v2 := ih v1 (pms, v2) hr
        exact fun x hx => h2 (h1 hx)

theorem elementStep_grows (a : Ty → Nat → Visited → Option (TypeMetadata × Visited))
    (ha : ∀ ty d v r, a ty d v = some r → v ⊆ r.2)
    (isArray : Bool) (baseType : Ty) (depth : Nat) (v : Visited)
    (r : Option TypeMetadata × Visited)
    (h : elementStep a isArray baseType depth v = some r) : v ⊆ r.2 := by
  unfold elementStep at h
  split at h
  · cases hq : a baseType (depth + 1) v with
    | none => rw [hq] at h; simp at h
    | some q =>
      rw [hq] at h
      injection h with h
      subst h
      exact ha _ _ _ _ hq
  · injection h with h
    subst h
    exact fun x hx => hx

theorem classifyBase_grows (env : Env)
    (a : Ty → Nat → Visited → Option (TypeMetadata × Visited))
    (ha : ∀ ty d v r, a ty d v = some r → v ⊆ r.2)
    (tn : String) (isArray : Bool) (baseType : Ty) (et : Option TypeMetadata)
    (v1 : Visited) (r : TypeMetadata × Visited)
    (h : classifyBase env a tn isArray baseType et v1 = some r) : v1 ⊆ r.2 := by
  unfold classifyBase at h
  split at h
  · injection h with h; subst h; exact fun x hx => hx
  · split at h
    · injection h with h; subst h; exact fun x hx => hx
    · split at h
      · injection h with h; subst h; exact fun x hx => hx
      · split at h
        · injection h with h; subst h; exact fun x hx => hx
        · split at h
          · injection h with h; subst h; exact fun x hx => hx
          · injection h with h; subst h; exact fun x hx => hx
          · split at h
            · split at h
              · rename_i props hlk
                dsimp only at h
                split at h
                · exact absurd h (by simp)
                · rename_i pms v3 hr
                  injection h with h
                  subst h
                  exact fun x hx =>
                    runProps_grows a ha props (v1.add tn) (pms, v3) hr
                      (Visited.subset_add v1 tn hx)
              · dsimp only at h
                injection h with h
                subst h
                exact Visited.subset_add v1 tn
            · injection h with h; subst h; exact fun x hx => hx

theorem analyzeTypeF_grows (env : Env) :
    ∀ (fuel : Nat) (ty : Ty) (depth : Nat) (v : Visited) (r : TypeMetadata × Visited),
      analyzeTypeF env fuel ty depth v = some r → v ⊆ r.2 := by
  intro fuel
  induction fuel with
  | zero => intro ty d v r h; simp [analyzeTypeF] at h
  | succ fuel ih =>
    intro ty d v r h
    rw [analyzeTypeF] at h
    split at h
    · injection h with h; subst h; exact fun x hx => hx
    · split at h
      · injection h with h; subst h; exact fun x hx => hx
      · split at h
        · exact absurd h (by simp)
        · rename_i et v1 hel
          have h1 : v ⊆ v1 :=
            elementStep_grows (analyzeTypeF env fuel) (ih) ty.isArrTy ty.baseTy d v
              (et, v1) hel
          have h2 : v1 ⊆ r.2 :=
            classifyBase_grows env (analyzeTypeF env fuel) (ih) ty.text ty.isArrTy
              ty.baseTy et v1 r h
          exact fun x hx => h2 (h1 hx)

/-! ## Lemmas: results are stable under extra fuel -/

theorem analyzeProp_congr (a b : Ty → Nat → Visited → Option (TypeMetadata × Visited))
    (hab : ∀ ty d v r, a ty d v = some r → b ty d v = some r)
    (p : PropDecl) (v : Visited) (r : PropertyMetadata × Visited)
    (h : analyzeProp a p v = some r) : analyzeProp b p v = some r := by
  unfold analyzeProp at h ⊢
  cases hq : a p.ty 0 v with
  | none => rw [hq] at h; simp at h
  | some q => rw [hq] at h; rw [hab _ _ _ _ hq]; exact h

theorem runProps_congr (a b : Ty → Nat → Visited → Option (TypeMetadata × Visited))
    (hab : ∀ ty d v r, a ty d v = some r → b ty d v = some r) :
    ∀ (props : List PropDecl) (v : Visited) (r : List PropertyMetadata × Visited),
      runProps a props v = some r → runProps b props v = some r := by
  intro props
  induction props with
  | nil => intro v r h; exact h
  | cons p rest ih =>
    intro v r h
    rw [runProps] at h ⊢
    split at h
    · exact absurd h (by simp)
    · rename_i pm v1 hp
      rw [analyzeProp_congr a b hab p v (pm, v1) hp]
      dsimp only
      split at h
      · exact absurd h (by simp)
      · rename_i pms v2 hr
        rw [ih v1 (pms, v2) hr]
        exact h

theorem elementStep_congr (a b : Ty → Nat → Visited → Option (TypeMetadata × Visited))
    (hab : ∀ ty d v r, a ty d v = some r → b ty d v = some r)
    (isArray : Bool) (baseType : Ty) (depth : Nat) (v : Visited)
    (r : Option TypeMetadata × Visited)
    (h : elementStep a isArray baseType depth v = some r) :
    elementStep b isArray baseType depth v = some r := by
  unfold elementStep at h ⊢
  split at h
  · next hi =>
    rw [if_pos hi]
    cases hq : a baseType (depth + 1) v with
    | none => rw [hq] at h; simp at h
    | some q => rw [hq] at h; rw [hab _ _ _ _ hq]; exact h
  · next hi => rw [if_neg hi]; exact h

theorem classifyBase_congr (env : Env)
    (a b : Ty → Nat → Visited → Option (TypeMetadata × Visited))
    (hab : ∀ ty d v r, a ty d v = some r → b ty d v = some r)
    (tn : String) (isArray : Bool) (baseType : Ty) (et : Option TypeMetadata)
    (v1 : Visited) (r : TypeMetadata × Visited)
    (h : classifyBase env a tn isArray baseType et v1 = some r) :
    classifyBase env b tn isArray baseType et v1 = some r := by
  unfold classifyBase at h ⊢
  cases baseType with
  | str => exact h
  | num => exact h
  | bool => exact h
  | arr e => exact h
  | enumTy n vs => exact h
  | union ms => exact h
  | other t => exact h
  | cls n =>
    by_cases hdate : jsIncludes tn "Date" = true
    · rw [if_neg (by simp [Ty.isStr]), if_neg (by simp [Ty.isNum]),
        if_neg (by simp [Ty.isBool]), if_pos hdate] at h ⊢
      exact h
    · rw [if_neg (by simp [Ty.isStr]), if_neg (by simp [Ty.isNum]),
        if_neg (by simp [Ty.isBool]), if_neg hdate] at h ⊢
      dsimp only at h ⊢
      rw [if_pos (show (Ty.cls n).isObjectTy = true from rfl)] at h ⊢
      cases hlk : classSymbolProps env (Ty.cls n) with
      | none => rw [hlk] at h; exact h
      | some props =>
        rw [hlk] at h
        dsimp only at h ⊢
        cases hr : runProps a props (v1.add tn) with
        | none => rw [hr] at h; simp at h
        | some rr =>
          rw [hr] at h
          rw [runProps_congr a b hab props (v1.add tn) rr hr]
          exact h

theorem analyzeTypeF_le (env : Env) :
    ∀ (f1 f2 : Nat), f1 ≤ f2 →
    ∀ (ty : Ty) (d : Nat) (v : Visited) (r : TypeMetadata × Visited),
      analyzeTypeF env f1 ty d v = some r → analyzeTypeF env f2 ty d v = some r := by
  intro f1
  induction f1 with
  | zero => intro f2 _ ty d v r h; simp [analyzeTypeF] at h
  | succ f1 ih =>
    intro f2 hle ty d v r h
    obtain ⟨f2', rfl⟩ : ∃ k, f2 = k + 1 := ⟨f2 - 1, by omega⟩
    have hle' : f1 ≤ f2' := by omega
    rw [analyzeTypeF] at h ⊢
    by_cases hd : d > maxDepth
    · rw [if_pos hd] at h ⊢; exact h
    · rw [if_neg hd] at h ⊢
      by_cases hv : List.contains v ty.text = true
      · rw [if_pos hv] at h ⊢; exact h
      · rw [if_neg hv] at h ⊢
        cases hel : elementStep (analyzeTypeF env f1) ty.isArrTy ty.baseTy d v with
        | none => rw [hel] at h; simp at h
        | some ev =>
          rw [hel] at h
          rw [elementStep_congr (analyzeTypeF env f1) (analyzeTypeF env f2')
            (fun ty d v r => ih f2' hle' ty d v r) ty.isArrTy ty.baseTy d v ev hel]
          obtain ⟨et, v1⟩ := ev
          exact classifyBase_congr env (analyzeTypeF env f1) (analyzeTypeF env f2')
            (fun ty d v r => ih f2' hle' ty d v r) ty.text ty.isArrTy ty.baseTy et v1 r h

/-! ## Lemmas: the fuel bound is sufficient -/

theorem self_mem_spineTys (ty : Ty) : ty ∈ spineTys ty := by
  cases ty <;> simp [spineTys]

theorem spineLen_pos (ty : Ty) : 1 ≤ spineLen ty := by
  cases ty <;> simp [spineLen, spineTys]

theorem spineLen_arr (e : Ty) : spineLen (Ty.arr e) = spineLen e + 1 := by
  simp [spineLen, spineTys]

theorem mem_univNames_self (env : Env) (ty : Ty) : ty.text ∈ univNames env ty := by
  unfold univNames
  rw [List.mem_toFinset]
  exact List.mem_map_of_mem Ty.text (List.mem_append_left _ (self_mem_spineTys ty))

theorem envUniv_subset_univNames (env : Env) (ty : Ty) :
    envUnivNames env ⊆ univNames env ty := by
  intro x hx
  unfold envUnivNames at hx
  unfold univNames
  rw [List.mem_toFinset] at hx ⊢
  rw [List.map_append]
  exact List.mem_append_right _ hx

theorem univNames_elem_subset (env : Env) (e : Ty) :
    univNames env e ⊆ univNames env (Ty.arr e) := by
  intro x hx
  unfold univNames at hx ⊢
  rw [List.mem_toFinset] at hx ⊢
  rw [List.map_append] at hx ⊢
  rcases List.mem_append.mp hx with h | h
  · refine List.mem_append_left _ ?_
    rw [List.mem_map] at h ⊢
    obtain ⟨t, ht, rfl⟩ := h
    refine ⟨t, ?_, rfl⟩
    simp only [spineTys, List.mem_cons]
    exact Or.inr ht
  · exact List.mem_append_right _ h

theorem univNames_propTy_subset_envUniv (env : Env) (p : PropDecl)
    (hp : p ∈ envPropsList env) : univNames env p.ty ⊆ envUnivNames env := by
  intro x hx
  unfold univNames at hx
  unfold envUnivNames
  rw [List.mem_toFinset] at hx ⊢
  rw [List.map_append] at hx
  rcases List.mem_append.mp hx with h | h
  · rw [List.mem_map] at h ⊢
    obtain ⟨t, ht, rfl⟩ := h
    refine ⟨t, ?_, rfl⟩
    unfold envTys
    exact List.mem_flatMap.mpr ⟨p, hp, ht⟩
  · exact h

theorem le_foldr_max (l : List Nat) (x : Nat) (h : x ∈ l) : x ≤ l.foldr max 0 := by
  induction l with
  | nil => simp at h
  | cons y l ih =>
    rcases List.mem_cons.mp h with rfl | h2
    · exact le_max_left _ _
    · exact le_trans (ih h2) (le_max_right _ _)

theorem spineLen_le_maxPropSpine (env : Env) (p : PropDecl)
    (hp : p ∈ envPropsList env) : spineLen p.ty ≤ maxPropSpine env := by
  unfold maxPropSpine
  exact le_foldr_max _ _ (List.mem_map_of_mem (fun q => spineLen q.ty) hp)

theorem classSymbolProps_mem (env : Env) (bt : Ty) (props : List PropDecl)
    (h : classSymbolProps env bt = some props) :
    ∀ p ∈ props, p ∈ envPropsList env := by
  cases bt <;> simp [classSymbolProps] at h
  next n =>
    unfold lookupClass at h
    cases hf : env.find? (fun c => c.1 == n) with
    | none => rw [hf] at h; simp at h
    | some c =>
      rw [hf] at h
      simp at h
      intro p hp
      unfold envPropsList
      refine List.mem_flatMap.mpr ⟨c, List.mem_of_find?_eq_some hf, ?_⟩
      rw [h]
      exact hp

theorem toFinset_subset_of_subset {v w : Visited} (h : v ⊆ w) :
    v.toFinset ⊆ w.toFinset := by
  intro x hx
  rw [List.mem_toFinset] at hx ⊢
  exact h hx

theorem card_sdiff_le_of_subset {U V : Finset String} (hUV : U ⊆ V) {v w : Visited}
    (h : v ⊆ w) : (U \ w.toFinset).card ≤ (V \ v.toFinset).card :=
  Finset.card_le_card (Finset.sdiff_subset_sdiff hUV (toFinset_subset_of_subset h))

theorem runProps_suff (env : Env)
    (a : Ty → Nat → Visited → Option (TypeMetadata × Visited)) (F : Nat)
    (hgrow : ∀ ty d v r, a ty d v = some r → v ⊆ r.2)
    (hsuff : ∀ ty d v, fuelBound env v ty < F → (a ty d v).isSome) :
    ∀ (props : List PropDecl) (v : Visited),
      (∀ p ∈ props, p ∈ envPropsList env) →
      (envUnivNames env \ v.toFinset).card * (maxPropSpine env + 1)
          + maxPropSpine env < F →
      (runProps a props v).isSome := by
  intro props
  induction props with
  | nil => intro v _ _; simp [runProps]
  | cons p rest ih =>
    intro v hmem hF
    have hpenv : p ∈ envPropsList env := hmem p (List.mem_cons_self p rest)
    have hb : fuelBound env v p.ty < F := by
      unfold fuelBound
      have h1 : (univNames env p.ty \ v.toFinset).card ≤
          (envUnivNames env \ v.toFinset).card :=
        Finset.card_le_card (Finset.sdiff_subset_sdiff
          (univNames_propTy_subset_envUniv env p hpenv) (subset_refl _))
      have h2 : spineLen p.ty ≤ maxPropSpine env := spineLen_le_maxPropSpine env p hpenv
      have h3 : (univNames env p.ty \ v.toFinset).card * (maxPropSpine env + 1) ≤
          (envUnivNames env \ v.toFinset).card * (maxPropSpine env + 1) :=
        Nat.mul_le_mul_right _ h1
      omega
    obtain ⟨q, hq⟩ := Option.isSome_iff_exists.mp (hsuff p.ty 0 v hb)
    have hgv : v ⊆ q.2 := hgrow _ _ _ _ hq
    rw [runProps]
    have hap : analyzeProp a p v =
        some (⟨p.name, q.1, !p.hasQuestionToken && !p.hasInitializer,
               p.jsDoc.map jsTrim⟩, q.2) := by
      unfold analyzeProp
      rw [hq]
      rfl
    rw [hap]
    dsimp only
    have hF2 : (envUnivNames env \ q.2.toFinset).card * (maxPropSpine env + 1)
        + maxPropSpine env < F := by
      have h4 := card_sdiff_le_of_subset (subset_refl (envUnivNames env)) hgv
      have h5 := Nat.mul_le_mul_right (maxPropSpine env + 1) h4
      omega
    obtain ⟨rr, hrr⟩ := Option.isSome_iff_exists.mp
      (ih q.2 (fun x hx => hmem x (List.mem_cons_of_mem p hx)) hF2)
    rw [hrr]
    obtain ⟨pms, v3⟩ := rr
    simp

theorem classifyBase_suff (env : Env)
    (a : Ty → Nat → Visited → Option (TypeMetadata × Visited)) (F : Nat)
    (hgrow : ∀ ty d v r, a ty d v = some r → v ⊆ r.2)
    (hsuff : ∀ ty d v, fuelBound env v ty < F → (a ty d v).isSome)
    (tn : String) (isArray : Bool) (baseType : Ty) (et : Option TypeMetadata)
    (v1 : Visited)
    (H : (envUnivNames env \ (v1.add tn).toFinset).card * (maxPropSpine env + 1)
           + maxPropSpine env < F) :
    (classifyBase env a tn isArray baseType et v1).isSome := by
  unfold classifyBase
  split
  · simp
  · split
    · simp
    · split
      · simp
      · split
        · simp
        · split
          · simp
          · simp
          · split
            · dsimp only
              split
              · rename_i props hlk
                have hmem := classSymbolProps_mem env _ props hlk
                obtain ⟨rr, hrr⟩ := Option.isSome_iff_exists.mp
                  (runProps_suff env a F hgrow hsuff props (v1.add tn) hmem H)
                rw [hrr]
                obtain ⟨pms, v3⟩ := rr
                simp
              · simp
            · simp

theorem analyzeTypeF_suff (env : Env) :
    ∀ (fuel : Nat) (ty : Ty) (d : Nat) (v : Visited),
      fuelBound env v ty < fuel → (analyzeTypeF env fuel ty d v).isSome := by
  intro fuel
  induction fuel with
  | zero => intro ty d v h; exact absurd h (Nat.not_lt_zero _)
  | succ fuel ih =>
    intro ty d v hb
    rw [analyzeTypeF]
    by_cases hd : d > maxDepth
    · rw [if_pos hd]; simp
    · rw [if_neg hd]
      by_cases hv : List.contains v ty.text = true
      · rw [if_pos hv]; simp
      · rw [if_neg hv]
        have helem : ∃ et v1,
            elementStep (analyzeTypeF env fuel) ty.isArrTy ty.baseTy d v =
              some (et, v1) ∧ v ⊆ v1 := by
          cases ty with
          | arr e =>
            have hlt : fuelBound env v e < fuel := by
              have h1 : (univNames env e \ v.toFinset).card ≤
                  (univNames env (Ty.arr e) \ v.toFinset).card :=
                Finset.card_le_card (Finset.sdiff_subset_sdiff
                  (univNames_elem_subset env e) (subset_refl _))
              have h3 := Nat.mul_le_mul_right (maxPropSpine env + 1) h1
              unfold fuelBound at hb ⊢
              rw [spineLen_arr] at hb
              omega
            obtain ⟨q, hq⟩ := Option.isSome_iff_exists.mp (ih e (d + 1) v hlt)
            refine ⟨some q.1, q.2, ?_, analyzeTypeF_grows env fuel e (d + 1) v q hq⟩
            simp only [elementStep, Ty.isArrTy, Ty.baseTy, if_true]
            rw [hq]
            rfl
          | str => exact ⟨none, v, by simp [elementStep, Ty.isArrTy], fun x hx => hx⟩
          | num => exact ⟨none, v, by simp [elementStep, Ty.isArrTy], fun x hx => hx⟩
          | bool => exact ⟨none, v, by simp [elementStep, Ty.isArrTy], fun x hx => hx⟩
          | enumTy n vs => exact ⟨none, v, by simp [elementStep, Ty.isArrTy], fun x hx => hx⟩
          | union ms => exact ⟨none, v, by simp [elementStep, Ty.isArrTy], fun x hx => hx⟩
          | cls n => exact ⟨none, v, by simp [elementStep, Ty.isArrTy], fun x hx => hx⟩
          | other t => exact ⟨none, v, by simp [elementStep, Ty.isArrTy], fun x hx => hx⟩
        obtain ⟨et, v1, hel, hv1⟩ := helem
        rw [hel]
        dsimp only
        apply classifyBase_suff env (analyzeTypeF env fuel) fuel
          (analyzeTypeF_grows env fuel) (fun ty d v h => ih ty d v h)
        have htn_mem : ty.text ∈ univNames env ty := mem_univNames_self env ty
        have htn_nv : ty.text ∉ v.toFinset := by
          rw [List.mem_toFinset]
          intro hmem
          exact hv (List.elem_iff.mpr hmem)
        have hsub : (envUnivNames env \ (v1.add ty.text).toFinset) ⊆
            ((univNames env ty \ v.toFinset).erase ty.text) := by
          intro x hx
          rw [Finset.mem_sdiff] at hx
          rw [Finset.mem_erase, Finset.mem_sdiff]
          obtain ⟨hx1, hx2⟩ := hx
          refine ⟨?_, envUniv_subset_univNames env ty hx1, fun hxv => hx2 ?_⟩
          · intro heq
            refine hx2 ?_
            rw [heq, List.mem_toFinset]
            exact Visited.mem_add v1 ty.text
          · rw [List.mem_toFinset] at hxv ⊢
            exact Visited.subset_add v1 ty.text (hv1 hxv)
        have hcard : (envUnivNames env \ (v1.add ty.text).toFinset).card + 1 ≤
            (univNames env ty \ v.toFinset).card := by
          have h6 := Finset.card_le_card hsub
          rw [Finset.card_erase_of_mem (Finset.mem_sdiff.mpr ⟨htn_mem, htn_nv⟩)] at h6
          have h7 : 0 < (univNames env ty \ v.toFinset).card :=
            Finset.card_pos.mpr ⟨ty.text, Finset.mem_sdiff.mpr ⟨htn_mem, htn_nv⟩⟩
          omega
        have h8 := Nat.mul_le_mul_right (maxPropSpine env + 1) hcard
        rw [Nat.succ_mul] at h8
        have hs := spineLen_pos ty
        unfold fuelBound at hb
        omega

/-! ## Lemmas: guard and expansion behavior of the resolver -/

theorem analyzeTypeF_visited (env : Env) (fuel : Nat) (ty : Ty) (d : Nat) (v : Visited)
    (hf : 0 < fuel) (hd : ¬ d > maxDepth) (hv : List.contains v ty.text = true) :
    analyzeTypeF env fuel ty d v = some (refMeta ty.text, v) := by
  obtain ⟨f, rfl⟩ : ∃ f, fuel = f + 1 := ⟨fuel - 1, by omega⟩
  rw [analyzeTypeF, if_neg hd, if_pos hv]

theorem analyzeTypeF_cls (env : Env) (fuel : Nat) (c : String) (props : List PropDecl)
    (d : Nat) (v : Visited)
    (hd : ¬ d > maxDepth) (hv : List.contains v c = false)
    (hdate : jsIncludes c "Date" = false)
    (hc : lookupClass env c = some props) :
    analyzeTypeF env (fuel + 1) (Ty.cls c) d v =
      match runProps (analyzeTypeF env fuel) props (v.add c) with
      | none => none
      | some (pms, v3) =>
        some (.mk c false false false false none (some pms) none none none, v3) := by
  rw [analyzeTypeF]
  rw [if_neg hd]
  have htext : (Ty.cls c).text = c := rfl
  rw [if_neg (by rw [htext, hv]; simp)]
  have hel : elementStep (analyzeTypeF env fuel) (Ty.cls c).isArrTy (Ty.cls c).baseTy d v =
      some (none, v) := by
    simp [elementStep, Ty.isArrTy]
  rw [hel]
  dsimp only
  unfold classifyBase
  rw [if_neg (by simp [Ty.baseTy, Ty.isStr]), if_neg (by simp [Ty.baseTy, Ty.isNum]),
    if_neg (by simp [Ty.baseTy, Ty.isBool]), if_neg (by rw [htext, hdate]; simp)]
  rw [if_pos (show (Ty.cls c).baseTy.isObjectTy = true from rfl)]
  dsimp only
  have hsym : classSymbolProps env (Ty.cls c).baseTy = some props := by
    simp [Ty.baseTy, classSymbolProps, hc]
  rw [hsym]
  simp only [Ty.baseTy, Ty.isArrTy, Ty.text]

theorem runProps_getElem (a : Ty → Nat → Visited → Option (TypeMetadata × Visited))
    (hgrow : ∀ ty d v r, a ty d v = some r → v ⊆ r.2) :
    ∀ (props : List PropDecl) (v : Visited) (pms : List PropertyMetadata) (v2 : Visited),
      runProps a props v = some (pms, v2) →
      ∀ (i : Nat) (p : PropDecl), props[i]? = some p →
      ∃ (w : Visited) (r : TypeMetadata × Visited),
        v ⊆ w ∧ a p.ty 0 w = some r ∧
        pms[i]? = some ⟨p.name, r.1, !p.hasQuestionToken && !p.hasInitializer,
                        p.jsDoc.map jsTrim⟩ := by
  intro props
  induction props with
  | nil => intro v pms v2 h i p hp; simp at hp
  | cons q rest ih =>
    intro v pms v2 h i p hp
    rw [runProps] at h
    split at h
    · exact absurd h (by simp)
    · rename_i pm v1 hq
      split at h
      · exact absurd h (by simp)
      · rename_i pms1 v3 hr
        injection h with h
        injection h with h1 h2
        subst h1
        subst h2
        cases i with
        | zero =>
          simp only [List.getElem?_cons_zero, Option.some.injEq] at hp
          subst hp
          unfold analyzeProp at hq
          cases har : a q.ty 0 v with
          | none => rw [har] at hq; simp at hq
          | some r =>
            rw [har] at hq
            injection hq with hq
            refine ⟨v, r, fun x hx => hx, har, ?_⟩
            simp only [List.getElem?_cons_zero, Option.some.injEq]
            injection hq with hq1 hq2
            exact hq1.symm
        | succ i =>
          simp only [List.getElem?_cons_succ] at hp
          obtain ⟨w, r, hsub, har, hget⟩ := ih v1 pms1 v3 hr i p hp
          have hv1 : v ⊆ v1 := analyzeProp_grows a hgrow q v (pm, v1) hq
          exact ⟨w, r, fun x hx => hsub (hv1 hx), har,
            by simpa [List.getElem?_cons_succ] using hget⟩

/-! ## Claim C1: self-referential type graphs -/

/-- C1 counterexample: the claim fails for a self-referential class whose name
contains `Date`.  For `class DateNode with self: DateNode`, the analyzer's
`typeName.includes('Date')` branch (dto-analyzer lines 124-134) fires before
the object branch, so resolving the class — and equally resolving the
self-referencing property's type itself — yields a date-time string
*primitive* descriptor with no properties, never the non-expanding reference
descriptor carrying the type name that the claim asserts. -/
theorem dtoAnalyzer_selfref_date_counterexample :
    lookupClass dateNodeEnv "DateNode" =
      some [⟨"self", Ty.cls "DateNode", false, false, none⟩] ∧
    (analyzeTypeF dateNodeEnv 20 (Ty.cls "DateNode") 0 []).map (fun r => r.1) =
      some dateTimeMeta ∧
    (analyzeProp (analyzeTypeF dateNodeEnv 20)
        ⟨"self", Ty.cls "DateNode", false, false, none⟩ []).map (fun r => r.1.type) =
      some dateTimeMeta ∧
    dateTimeMeta.properties = none ∧
    dateTimeMeta ≠ refMeta "DateNode" :=
  ⟨rfl, rfl, rfl, rfl,
   fun h => absurd (congrArg TypeMetadata.type h) (by decide)⟩

/-- C1 amended: for every type graph containing a self-reference, the type
resolver terminates — the computable fuel bound makes the analysis of every
type of the graph succeed — and, provided the class's type text does not
contain `Date` (otherwise the `includes('Date')` check classifies the type as
a date-time primitive before any expansion, previous counterexample), the
self-referencing property inside the expansion of the class resolves to the
non-expanding reference descriptor carrying just the type name (no
properties, no element type). -/
theorem dtoAnalyzer_selfref_terminates_and_references (env : Env) (c : String)
    (props : List PropDecl) (i : Nat) (p : PropDecl)
    (hc : lookupClass env c = some props) (hp : props[i]? = some p)
    (hty : p.ty = Ty.cls c) (hdate : jsIncludes c "Date" = false) :
    (∀ (ty : Ty) (d : Nat) (v : Visited) (fuel : Nat),
        fuelBound env v ty < fuel → (analyzeTypeF env fuel ty d v).isSome) ∧
    (∀ fuel, analyzeSufficientFuel env (Ty.cls c) ≤ fuel →
      ∃ (m : TypeMetadata) (v2 : Visited),
        analyzeTypeF env fuel (Ty.cls c) 0 [] = some (m, v2) ∧
        ∃ pms, m.properties = some pms ∧
          pms[i]? = some ⟨p.name, refMeta c,
            !p.hasQuestionToken && !p.hasInitializer, p.jsDoc.map jsTrim⟩) := by
  constructor
  · intro ty d v fuel hb
    exact analyzeTypeF_suff env fuel ty d v hb
  · intro fuel hfuel
    obtain ⟨g, rfl⟩ : ∃ g, fuel = g + 1 := ⟨fuel - 1, by
      unfold analyzeSufficientFuel at hfuel; omega⟩
    have hexp := analyzeTypeF_cls env g c props 0 [] (by simp [maxDepth]) rfl hdate hc
    have hsome : (analyzeTypeF env (g + 1) (Ty.cls c) 0 []).isSome := by
      apply analyzeTypeF_suff
      unfold analyzeSufficientFuel at hfuel
      omega
    rw [hexp] at hsome ⊢
    cases hrun : runProps (analyzeTypeF env g) props (Visited.add [] c) with
    | none =>
      rw [hrun] at hsome
      simp at hsome
    | some rr =>
      rw [hrun] at hsome
      obtain ⟨pms, v3⟩ := rr
      refine ⟨_, v3, rfl, pms, rfl, ?_⟩
      obtain ⟨w, r, hsubw, har, hget⟩ :=
        runProps_getElem (analyzeTypeF env g) (analyzeTypeF_grows env g) props
          (Visited.add [] c) pms v3 hrun i p hp
      have hcw : List.contains w p.ty.text = true := by
        rw [hty]
        have hcmem : c ∈ w := hsubw (Visited.mem_add [] c)
        exact List.elem_iff.mpr hcmem
      have hg : 0 < g := by
        rcases Nat.eq_zero_or_pos g with rfl | hg
        · simp [analyzeTypeF] at har
        · exact hg
      have hval := analyzeTypeF_visited env g p.ty 0 w hg (by simp [maxDepth]) hcw
      rw [har] at hval
      injection hval with hval
      subst hval
      rw [hget, hty]
      rfl

/-- C1 witness: the self-referential `Node` class at its computed sufficient
fuel; the `next` property inside the expansion is the bare named reference. -/
theorem dtoAnalyzer_selfref_witness :
    ∃ (m : TypeMetadata) (v2 : Visited),
      analyzeTypeF nodeEnv (analyzeSufficientFuel nodeEnv (Ty.cls "Node"))
        (Ty.cls "Node") 0 [] = some (m, v2) ∧
      ∃ pms, m.properties = some pms ∧
        pms[0]? = some ⟨"next", refMeta "Node", true, none⟩ :=
  (dtoAnalyzer_selfref_terminates_and_references nodeEnv "Node"
      [⟨"next", Ty.cls "Node", false, false, none⟩] 0
      ⟨"next", Ty.cls "Node", false, false, none⟩ rfl rfl rfl (by decide)).2
    (analyzeSufficientFuel nodeEnv (Ty.cls "Node")) (le_refl _)

/-! ## Claim C2: the depth bound -/

/-- C2 counterexample: a chain of seven classes nested through object
properties is fully expanded by the resolver — six property levels below the
root the descriptor is the expansion of `A7` (type text `A7`, with properties
present), not the `unknown` cutoff the claim predicts at the bound of 5;
`analyzeProperty` calls `analyzeType(type, 0)`, so property descent resets the
depth counter. -/
theorem depthBound_object_chain_counterexample :
    ((analyzeTypeF chainEnv7 30 (Ty.cls "A1") 0 []).bind
        (fun r => (nestedPropTy 6 r.1).map (fun m => (m.type, m.properties.isSome)))) =
      some ("A7", true) := rfl

/-- C2 amended: resolution at depth exceeding the bound (5) yields `unknown`
immediately and unconditionally; the depth counter increments only through
array-element descent (property descent restarts at 0), so the bound cuts off
array nesting — a seven-fold array of strings resolves with the `unknown`
descriptor exactly at the sixth element level — while object-property chains
are bounded by cycle-breaking, not by depth (previous counterexample). -/
theorem depthBound_amended :
    (∀ (env : Env) (fuel : Nat) (v : Visited) (ty : Ty) (depth : Nat),
        maxDepth < depth → 0 < fuel →
        analyzeTypeF env fuel ty depth v = some (unknownMeta, v)) ∧
    ((analyzeTypeF [] 10 arr7 0 []).bind (fun r => elemChain 6 r.1)) =
      some unknownMeta := by
  constructor
  · intro env fuel v ty depth hdep hf
    obtain ⟨f, rfl⟩ : ∃ f, fuel = f + 1 := ⟨fuel - 1, by omega⟩
    rw [analyzeTypeF, if_pos hdep]
  · rfl

/-- C2 amended witness: any resolution started beyond the bound is `unknown`. -/
theorem depthBound_amended_witness :
    analyzeTypeF [] 1 Ty.str 6 [] = some (unknownMeta, []) :=
  depthBound_amended.1 [] 1 [] Ty.str 6 (by decide) (by decide)

/-! ## Claim C3: scoping of the visited set -/

/-- C3 counterexample: the visited set is instance state surviving across
direct `analyzeType` calls.  A top-level analysis of class `A` leaves the
resolver state `["A"]`; a subsequent independent top-level analysis of the
distinct root `B` started from that state resolves the `a: A` property as a
bare non-expanding reference (no properties), while the same call on a fresh
resolver expands it — the second resolution's descriptor is not independent of
the first call. -/
theorem visitedState_leak_counterexample :
    (analyzeTypeF leakEnv 20 (Ty.cls "A") 0 []).map (fun r => r.2) = some ["A"] ∧
    ((analyzeTypeF leakEnv 20 (Ty.cls "B") 0 ["A"]).bind
        (fun r => (nestedPropTy 1 r.1).map (fun m => m.properties.isSome))) =
      some false ∧
    ((analyzeTypeF leakEnv 20 (Ty.cls "B") 0 []).bind
        (fun r => (nestedPropTy 1 r.1).map (fun m => m.properties.isSome))) =
      some true :=
  ⟨rfl, rfl, rfl⟩

/-- C3 amended: `analyzeDto` clears the instance-level visited set on entry
(`this.visitedTypes.clear()`), so a dto analysis is unaffected by whatever
state earlier resolver calls left on the instance; the claimed per-call
freshness holds at the `analyzeDto` boundary, while direct `analyzeType`
calls share leftover instance state (previous counterexample). -/
theorem analyzeDto_ignores_prior_state (env : Env) (fuel : Nat) (d : DtoDecl)
    (s t : Visited) : analyzeDtoS env fuel d s = analyzeDtoS env fuel d t := rfl

/-! ## Claim C10: the required flag -/

/-- C10: a property descriptor's `required` flag is true exactly when the
declared property carries neither a question token nor an initializer
(`!property.hasQuestionToken() && !property.hasInitializer()`); in particular
a property with a default-value initializer is reported as not required. -/
theorem analyzeProperty_required_iff (env : Env) (fuel : Nat) (p : PropDecl)
    (v : Visited) (pm : PropertyMetadata) (v2 : Visited)
    (h : analyzeProp (analyzeTypeF env fuel) p v = some (pm, v2)) :
    (pm.required = true ↔ p.hasQuestionToken = false ∧ p.hasInitializer = false) := by
  unfold analyzeProp at h
  cases hq : analyzeTypeF env fuel p.ty 0 v with
  | none => rw [hq] at h; simp at h
  | some q =>
    rw [hq] at h
    injection h with h
    injection h with h1 h2
    subst h1
    simp

/-- C10 witness: a string property with an initializer and no question token
is analyzed with `required = false`. -/
theorem analyzeProperty_required_witness :
    analyzeProp (analyzeTypeF [] 2) ⟨"flag", Ty.str, false, true, none⟩ [] =
      some (⟨"flag",
             TypeMetadata.mk "string" true false false false none none none none none,
             false, none⟩, []) ∧
    ((⟨"flag", TypeMetadata.mk "string" true false false false none none none none none,
       false, none⟩ : PropertyMetadata).required = true ↔
      (false = false ∧ true = false)) :=
  ⟨rfl, analyzeProperty_required_iff [] 2 ⟨"flag", Ty.str, false, true, none⟩ [] _ [] rfl⟩

/-! ## Claim C6: configuration validation -/

/-- C6: constructing the configuration service fails exactly when `title` or
`version` is missing or blank after trimming; every configuration with
non-blank title and version constructs successfully, with the documented
defaults filled in for each absent optional field, and no other field
influences success. -/
theorem configService_construct_iff (o : AutoDocsOptions) :
    (exceptIsOk (constructConfigService o) =
      (!isBlankField o.title && !isBlankField o.version)) ∧
    (isBlankField o.title = false → isBlankField o.version = false →
      constructConfigService o = Except.ok (mergeWithDefaults o) ∧
      (o.sourcePath = none → (mergeWithDefaults o).sourcePath = some "src") ∧
      (o.docsPath = none → (mergeWithDefaults o).docsPath = some "/docs") ∧
      (o.specPath = none → (mergeWithDefaults o).specPath = some "/docs-json") ∧
      (o.scanOnStart = none → (mergeWithDefaults o).scanOnStart = some true) ∧
      (o.watchMode = none → (mergeWithDefaults o).watchMode = some false) ∧
      (o.includeSecurity = none → (mergeWithDefaults o).includeSecurity = some true)) := by
  constructor
  · cases h1 : isBlankField o.title <;> cases h2 : isBlankField o.version <;>
      simp [constructConfigService, validateRequiredFields, exceptIsOk, h1, h2]
  · intro h1 h2
    refine ⟨?_, ?_, ?_, ?_, ?_, ?_, ?_⟩
    · simp [constructConfigService, validateRequiredFields, h1, h2]
    · intro h; simp [mergeWithDefaults, h]
    · intro h; simp [mergeWithDefaults, h]
    · intro h; simp [mergeWithDefaults, h]
    · intro h; simp [mergeWithDefaults, h]
    · intro h; simp [mergeWithDefaults, h]
    · intro h; simp [mergeWithDefaults, h]

/-- C6 witness: the minimal well-formed configuration constructs and receives
the defaults. -/
theorem configService_construct_witness :
    exceptIsOk (constructConfigService minimalGoodOpts) =
      (!isBlankField minimalGoodOpts.title && !isBlankField minimalGoodOpts.version) ∧
    constructConfigService minimalGoodOpts =
      Except.ok (mergeWithDefaults minimalGoodOpts) ∧
    (mergeWithDefaults minimalGoodOpts).sourcePath = some "src" ∧
    (mergeWithDefaults minimalGoodOpts).scanOnStart = some true :=
  ⟨(configService_construct_iff minimalGoodOpts).1,
   ((configService_construct_iff minimalGoodOpts).2 rfl rfl).1,
   ((configService_construct_iff minimalGoodOpts).2 rfl rfl).2.1 rfl,
   ((configService_construct_iff minimalGoodOpts).2 rfl rfl).2.2.2.2.1 rfl⟩

/-! ## Claim C7: unrecognized validation annotations -/

/-- C7: for every decorator name outside the recognized lookup table the
mapper never raises: it yields the empty-constraint descriptor (name kept,
constraints empty, no args) exactly when the name follows the `Is`/`Validate`
prefix convention, and `null` otherwise. -/
theorem mapValidator_unrecognized (name : String) (args : List String)
    (h : name ∉ recognizedValidatorNames) :
    mapValidatorDecorator name args =
      (if jsStartsWith name "Is" || jsStartsWith name "Validate" then
        some ⟨name, none, {}⟩
      else none) := by
  simp only [recognizedValidatorNames, List.mem_cons, List.mem_singleton,
    not_or] at h
  obtain ⟨h1, h2, h3, h4, h5, h6, h7, h8, h9, h10, h11, h12, h13, h14, h15, h16,
    h17, h18, h19, h20, h21, h22, h23, h24, -⟩ := h
  unfold mapValidatorDecorator
  rw [if_neg h1, if_neg h2, if_neg (not_or.mpr ⟨h3, h4⟩), if_neg h5, if_neg h6,
    if_neg h7, if_neg h8, if_neg h9,
    if_neg (not_or.mpr ⟨h10, not_or.mpr ⟨h11, h12⟩⟩), if_neg h13, if_neg h14,
    if_neg h15, if_neg (not_or.mpr ⟨h16, h17⟩), if_neg h18, if_neg h19,
    if_neg h20, if_neg h21, if_neg h22, if_neg h23, if_neg h24]

/-- C7 witness: an unrecognized `Is`-名 name keeps an empty descriptor, any
other unrecognized name maps to null. -/
theorem mapValidator_unrecognized_witness :
    ("IsAwesome" ∉ recognizedValidatorNames ∧
      mapValidatorDecorator "IsAwesome" [] = some ⟨"IsAwesome", none, {}⟩) ∧
    ("Whatever" ∉ recognizedValidatorNames ∧
      mapValidatorDecorator "Whatever" [] = none) := by
  refine ⟨⟨by decide, ?_⟩, ⟨by decide, ?_⟩⟩
  · rw [mapValidator_unrecognized "IsAwesome" [] (by decide)]
    decide
  · rw [mapValidator_unrecognized "Whatever" [] (by decide)]
    decide

/-! ## Claim C8: example precedence between formats and field names -/

/-- C8 counterexample: a property named `email` with recognized declared
format `uri` yields the uri sample, not the canonical email example the claim
asserts — the format switch runs before the field-name heuristic. -/
theorem exampleFormat_counterexample :
    generateExample emailUriProp = Val.str "https://example.com" ∧
    Val.str "https://example.com" ≠ Val.str "user@example.com" :=
  ⟨rfl, fun h => absurd (Val.str.inj h) (by decide)⟩

/-- C8 amended: a recognized declared format always wins — `email` named
property of declared format `uri` yields `https://example.com`; the field-name
heuristic applies when no format is declared: `contactUrl` (string, no format)
yields the url sample and `email` (string, no format) yields the canonical
email example. -/
theorem exampleFormat_amended :
    generateExample emailUriProp = Val.str "https://example.com" ∧
    generateExample contactUrlProp = Val.str "https://example.com" ∧
    generateExample emailPlainProp = Val.str "user@example.com" :=
  ⟨rfl, rfl, rfl⟩

/-! ## Claim C9: array examples -/

/-- C9 counterexample: the analyzer marks `string[]` as a primitive array
descriptor, and `generateFromType` checks `isPrimitive` before the array
branch, so a `string[]` property yields the bare string sample `"example"`,
not a single-element array. -/
theorem exampleArray_primitive_counterexample :
    (analyzeTypeF [] 5 (Ty.arr Ty.str) 0 []).map (fun r => r.1) =
      some stringArrayMeta ∧
    generateExample tagsProp = Val.str "example" ∧
    Val.str "example" ≠ Val.arr [Val.str "example"] :=
  ⟨rfl, rfl, fun h => Val.noConfusion h⟩

/-- C9 amended: the single-element-array rule holds exactly for non-primitive
array descriptors with a present element type; primitive arrays (string[],
number[], boolean[] as produced by the analyzer) take the primitive branch
first and yield the element's bare primitive example instead. -/
theorem exampleArray_amended :
    (∀ (t : String) (isEn opt : Bool) (e : TypeMetadata)
       (props : Option (List (PropEntry TypeMetadata))) (uni : Option (List String))
       (enums : Option (List EnumVal)) (fmt : Option String) (fn : Option String),
       generateFromType (.mk t false true isEn opt (some e) props uni enums fmt) fn =
         Val.arr [generateFromType e none]) ∧
    generateExample tagsProp = Val.str "example" := by
  constructor
  · intro t isEn opt e props uni enums fmt fn
    rfl
  · rfl

/-! ## Claim C4: versioned paths and servers (spec-modelled generator) -/

/-- C4 (spec-modelled): with versioning enabled at prefix `/api` and two
services resolved to versions `v1` and `v2`, each exposing one route at
logical path `admin/profile`, the synthesized document holds exactly the two
distinct path keys `api/v1/admin/profile` and `api/v2/admin/profile` and
exactly two server entries: `/api/v1` labeled `API V1` and `/api/v2` labeled
`API V2` (version uppercased). -/
theorem openapi_two_versions (c1 c2 : ControllerMeta) (r1 r2 : RouteMeta)
    (opts : AutoDocsOptions) (fb : Option String)
    (h1 : c1.version = some "v1") (h2 : c2.version = some "v2")
    (hr1 : c1.routes = [r1]) (hr2 : c2.routes = [r2])
    (hf1 : r1.fullPath = "/admin/profile") (hf2 : r2.fullPath = "/admin/profile")
    (hv : opts.versioning = some ⟨true, some "/api", fb⟩) :
    generateSpec [c1, c2] opts =
      ⟨["api/v1/admin/profile", "api/v2/admin/profile"],
       [⟨"/api/v1", "API V1"⟩, ⟨"/api/v2", "API V2"⟩]⟩ ∧
    ("api/v1/admin/profile" : String) ≠ "api/v2/admin/profile" ∧
    (generateSpec [c1, c2] opts).servers.length = 2 := by
  have hvr1 : versionedPathRoot ⟨true, some "/api", fb⟩ c1 = "/api/v1" := by
    unfold versionedPathRoot
    rw [h1]
    rfl
  have hvr2 : versionedPathRoot ⟨true, some "/api", fb⟩ c2 = "/api/v2" := by
    unfold versionedPathRoot
    rw [h2]
    rfl
  have hkeys : generatePathKeys [c1, c2] opts =
      ["api/v1/admin/profile", "api/v2/admin/profile"] := by
    unfold generatePathKeys
    rw [hv]
    dsimp only
    rw [if_pos rfl]
    rw [List.flatMap_cons, List.flatMap_cons, List.flatMap_nil, hr1, hr2]
    rw [List.map_cons, List.map_nil, List.map_cons, List.map_nil]
    rw [hf1, hf2, hvr1, hvr2]
    rfl
  have hservers : generateServers [c1, c2] opts =
      [⟨"/api/v1", "API V1"⟩, ⟨"/api/v2", "API V2"⟩] := by
    unfold generateServers
    rw [hv]
    dsimp only
    rw [if_pos rfl]
    rw [List.filterMap_cons, List.filterMap_cons, List.filterMap_nil, h1, h2]
    rfl
  have hspec : generateSpec [c1, c2] opts =
      ⟨["api/v1/admin/profile", "api/v2/admin/profile"],
       [⟨"/api/v1", "API V1"⟩, ⟨"/api/v2", "API V2"⟩]⟩ := by
    unfold generateSpec
    rw [hkeys, hservers]
  refine ⟨hspec, by decide, ?_⟩
  rw [hspec]
  rfl

/-- C4 witness: the concrete controllers and options of the multi-version
integration test. -/
theorem openapi_two_versions_witness :
    generateSpec [adminV1, adminV2] multiVersionOpts =
      ⟨["api/v1/admin/profile", "api/v2/admin/profile"],
       [⟨"/api/v1", "API V1"⟩, ⟨"/api/v2", "API V2"⟩]⟩ ∧
    ("api/v1/admin/profile" : String) ≠ "api/v2/admin/profile" ∧
    (generateSpec [adminV1, adminV2] multiVersionOpts).servers.length = 2 :=
  openapi_two_versions adminV1 adminV2
    { name := "getProfile", httpMethod := "GET", path := "profile",
      fullPath := "/admin/profile" }
    { name := "getProfile", httpMethod := "GET", path := "profile",
      fullPath := "/admin/profile" }
    multiVersionOpts none rfl rfl rfl rfl rfl rfl rfl

/-! ## Claim C5: fullPath and path combination -/

theorem string_ext_toList {s t : String} (h : s.toList = t.toList) : s = t := by
  cases s
  cases t
  exact congrArg String.mk h

theorem dropWhile_slash_id (l : List Char) (h : ∀ c ∈ l, (c == '/') = false) :
    l.dropWhile (fun x => x == '/') = l := by
  cases l with
  | nil => rfl
  | cons c rest =>
    rw [List.dropWhile_cons_of_neg]
    simp [h c (List.mem_cons_self _ _)]

theorem stripSlashes_noSlash (s : String) (h : ∀ c ∈ s.toList, (c == '/') = false) :
    stripSlashes s = s := by
  unfold stripSlashes
  rw [dropWhile_slash_id _ h]
  rw [dropWhile_slash_id _ (fun c hc => h c (List.mem_reverse.mp hc))]
  rw [List.reverse_reverse]
  rfl

theorem squeezeSlashes_noSlash (l : List Char) (h : ∀ c ∈ l, (c == '/') = false) :
    squeezeSlashes l = l := by
  induction l with
  | nil => rfl
  | cons c rest ih =>
    cases rest with
    | nil => rfl
    | cons d rest2 =>
      rw [squeezeSlashes]
      rw [h c (List.mem_cons_self _ _)]
      simp only [Bool.false_and]
      rw [if_neg (by simp)]
      rw [ih (fun x hx => h x (List.mem_cons_of_mem _ hx))]

theorem squeezeSlashes_sep (a b : List Char)
    (ha : ∀ c ∈ a, (c == '/') = false) (hb : ∀ c ∈ b, (c == '/') = false) :
    squeezeSlashes (a ++ '/' :: b) = a ++ '/' :: b := by
  induction a with
  | nil =>
    simp only [List.nil_append]
    cases b with
    | nil => rfl
    | cons x xs =>
      rw [squeezeSlashes]
      rw [hb x (List.mem_cons_self _ _)]
      simp only [Bool.and_false]
      rw [if_neg (by simp)]
      rw [squeezeSlashes_noSlash (x :: xs) hb]
  | cons c a2 ih =>
    have hc : (c == '/') = false := ha c (List.mem_cons_self _ _)
    have ih2 := ih (fun x hx => ha x (List.mem_cons_of_mem _ hx))
    cases a2 with
    | nil =>
      simp only [List.nil_append, List.cons_append]
      rw [squeezeSlashes, hc]
      simp only [Bool.false_and]
      rw [if_neg (by simp)]
      simp only [List.nil_append] at ih2
      rw [ih2]
    | cons c2 a3 =>
      simp only [List.cons_append]
      rw [squeezeSlashes, hc]
      simp only [Bool.false_and]
      rw [if_neg (by simp)]
      simp only [List.cons_append] at ih2
      rw [ih2]

/-- C5 counterexample: a controller base path `test` with route path `items`
yields `fullPath` `/test/items` — with a leading separator — while
`combinePathSegments([basePath, routePath])` is `test/items`; the two differ,
so `fullPath` is not `combinePathSegments([basePath, routePath])`.  The
expectation `/test/items` is the one asserted by
src/src/scanner/route-scanner.spec.ts. -/
theorem routeFullPath_counterexample :
    routeFullPath "test" "items" = "/test/items" ∧
    routeFullPath "test" "" = "/test" ∧
    combinePaths ["test", "items"] = "test/items" ∧
    ("/test/items" : String) ≠ "test/items" :=
  ⟨rfl, rfl, rfl, by decide⟩

/-- C5 amended: for separator-free segments (the shape produced by controller
and route decorators), `fullPath` is `'/' ++ combinePathSegments([basePath,
routePath])` — the route scanner adds a leading separator — and it always
starts with the separator; `combinePathSegments` itself strips edge
separators, drops empty segments and joins with a single separator, with no
leading separator (`combinePaths ["/api/v1/", "admin", "/profile/"] =
"api/v1/admin/profile"`, proved in the counterexample theorem for the
concrete pair). -/
theorem routeFullPath_amended (base path : String)
    (hb : ∀ c ∈ base.toList, (c == '/') = false)
    (hp : ∀ c ∈ path.toList, (c == '/') = false) :
    routeFullPath base path = "/" ++ combinePaths [base, path] ∧
    (routeFullPath base path).toList.head? = some '/' := by
  refine ⟨?_, rfl⟩
  unfold routeFullPath routeScannerCombine combinePaths
  by_cases hbe : base = ""
  · subst hbe
    by_cases hpe : path = ""
    · subst hpe
      rfl
    · have hps : path ≠ "/" := by
        intro h
        subst h
        exact absurd (hp '/' (by decide)) (by decide)
      have hfil : [("" : String), path].filter (fun p => p ≠ "" && p ≠ "/") = [path] := by
        rw [List.filter_cons, List.filter_cons, List.filter_nil]
        simp [hpe, hps]
      have hfil2 : [("" : String), path].filter (fun s => s ≠ "") = [path] := by
        rw [List.filter_cons, List.filter_cons, List.filter_nil]
        simp [hpe]
      rw [hfil, hfil2, List.map_cons, List.map_nil, stripSlashes_noSlash path hp]
      have hfil3 : [path].filter (fun s => s ≠ "") = [path] := by
        rw [List.filter_cons, List.filter_nil]
        simp [hpe]
      rw [hfil3]
      show "/" ++ String.mk (squeezeSlashes path.toList) = "/" ++ path
      rw [squeezeSlashes_noSlash path.toList hp]
      rfl
  · have hbs : base ≠ "/" := by
      intro h
      subst h
      exact absurd (hb '/' (by decide)) (by decide)
    by_cases hpe : path = ""
    · subst hpe
      have hfil : [base, ("" : String)].filter (fun p => p ≠ "" && p ≠ "/") = [base] := by
        rw [List.filter_cons, List.filter_cons, List.filter_nil]
        simp [hbe, hbs]
      have hfil2 : [base, ("" : String)].filter (fun s => s ≠ "") = [base] := by
        rw [List.filter_cons, List.filter_cons, List.filter_nil]
        simp [hbe]
      rw [hfil, hfil2, List.map_cons, List.map_nil, stripSlashes_noSlash base hb]
      have hfil3 : [base].filter (fun s => s ≠ "") = [base] := by
        rw [List.filter_cons, List.filter_nil]
        simp [hbe]
      rw [hfil3]
      show "/" ++ String.mk (squeezeSlashes base.toList) = "/" ++ base
      rw [squeezeSlashes_noSlash base.toList hb]
      rfl
    · have hps : path ≠ "/" := by
        intro h
        subst h
        exact absurd (hp '/' (by decide)) (by decide)
      have hfil : [base, path].filter (fun p => p ≠ "" && p ≠ "/") = [base, path] := by
        rw [List.filter_cons, List.filter_cons, List.filter_nil]
        simp [hbe, hbs, hpe, hps]
      have hfil2 : [base, path].filter (fun s => s ≠ "") = [base, path] := by
        rw [List.filter_cons, List.filter_cons, List.filter_nil]
        simp [hbe, hpe]
      rw [hfil, hfil2, List.map_cons, List.map_cons, List.map_nil,
        stripSlashes_noSlash base hb, stripSlashes_noSlash path hp]
      have hfil3 : [base, path].filter (fun s => s ≠ "") = [base, path] := by
        rw [List.filter_cons, List.filter_cons, List.filter_nil]
        simp [hbe, hpe]
      rw [hfil3]
      have htl : (joinSep "/" [base, path]).toList = base.toList ++ '/' :: path.toList := by
        show (base ++ "/" ++ path).toList = base.toList ++ '/' :: path.toList
        have hh1 : (base ++ "/" ++ path).toList = (base ++ "/").toList ++ path.toList :=
          String.data_append _ _
        have hh2 : (base ++ "/").toList = base.toList ++ ['/'] := String.data_append _ _
        rw [hh1, hh2, List.append_assoc]
        rfl
      rw [htl, squeezeSlashes_sep base.toList path.toList hb hp]
      exact congrArg (fun s => "/" ++ s) (string_ext_toList (by rw [htl]; rfl))

/-- C5 amended witness: the concrete base and route paths of the route-scanner
test. -/
theorem routeFullPath_amended_witness :
    routeFullPath "test" "items" = "/" ++ combinePaths ["test", "items"] ∧
    (routeFullPath "test" "items").toList.head? = some '/' :=
  routeFullPath_amended "test" "items" (by decide) (by decide)

end NestJsAutoDocs
